import Mathlib

/-!
Verification of the ULID codec underlying `nu_plugin_ulid` (src/plugin.rs).

The plugin's own logic (input dispatch in `RandomUlid::run`, flag handling in
`selected_randomness`, timestamp conversion in `unix_millis`, the `generate`
dispatch, and the record built by `ParseUlid::run`) is embedded directly from
`src/plugin.rs`.  The ULID value type and its codec (`Ulid::from_parts`,
`Ulid::to_string`, `str::parse::<Ulid>`, `Ulid::random`) live in the external
`ulid` crate, whose sources are not part of this repository; those definitions
are modelled from the specification (spec.md §3–§4).

A 128-bit ULID is embedded as a `Nat` (always `< 2 ^ 128`); its text form as a
`String` over Crockford's Base32 alphabet.  Environmental reads (wall clock,
random source) are passed as explicit arguments.  A Rust panic is modelled as
`none` in an `Option`-valued result.
-/

namespace NuUlid

/-- Modelled from the spec: the 32-symbol Crockford Base32 alphabet used by the
`ulid` crate's encoder (spec.md §3), excluding I, L, O, U. -/
def alphabet : List Char := "0123456789ABCDEFGHJKMNPQRSTVWXYZ".data

/-- Modelled from the spec: number of timestamp bits of a ULID (spec.md §3). -/
def TIME_BITS : Nat := 48

/-- Modelled from the spec: number of payload bits of a ULID (spec.md §3). -/
def RAND_BITS : Nat := 80

/-- Modelled from the spec: the `ulid` crate's `Ulid::from_parts` (called at
src/plugin.rs:191-193), which is missing from this repository's sources.
Per spec.md §3, `value = (timestamp << 80) | payload`, with an out-of-range
timestamp or payload truncated to its low-order 48 resp. 80 bits by masking. -/
def from_parts (timestamp_ms : Nat) (random : Nat) : Nat :=
  ((timestamp_ms &&& (2 ^ TIME_BITS - 1)) <<< RAND_BITS) |||
    (random &&& (2 ^ RAND_BITS - 1))

/-- Modelled from the spec: the `ulid` crate's `Ulid::random` accessor used at
src/plugin.rs:253 — the 80-bit payload component, i.e. the low 80 bits. -/
def random (u : Nat) : Nat := u &&& (2 ^ RAND_BITS - 1)

/-- Modelled from the spec: the `ulid` crate's `Ulid::timestamp_ms` component
underlying `Ulid::datetime` (src/plugin.rs:246) — the high 48 bits, the
milliseconds since the Unix epoch. -/
def timestamp_ms (u : Nat) : Nat := u >>> RAND_BITS

/-- Modelled from the spec: the digit-to-character map of the Base32 encoder
(spec.md §3): digit `d` (`d < 32`) maps to the `d`-th alphabet symbol. -/
def encode_char (d : Nat) : Char := alphabet.getD d '0'

/-- Modelled from the spec: the Base32 encoder of the `ulid` crate's `Display`
implementation (used by `.to_string()` at src/plugin.rs:132): `to_base32 k u`
is the `k`-character big-endian base-32 rendering of the low `5 * k` bits of
`u`, zero-padded to exactly `k` characters. -/
def to_base32 : Nat → Nat → List Char
  | 0, _ => []
  | k + 1, u => encode_char (u / 32 ^ k % 32) :: to_base32 k (u % 32 ^ k)

/-- Modelled from the spec: the canonical 26-character text form of a ULID
(spec.md §3): 10 characters of timestamp followed by 16 of payload. -/
def to_string (u : Nat) : String := ⟨to_base32 26 u⟩

/-- Modelled from the spec: the value of one character of ULID text on decode
(spec.md §3): case-insensitive Crockford Base32, with the visually excluded
letters I, L, O, U rejected.  Indexed by `c.toNat - 65` for `A`..`Z`. -/
def letter_val : Nat → Option Nat
  | 0 => some 10 | 1 => some 11 | 2 => some 12 | 3 => some 13 | 4 => some 14
  | 5 => some 15 | 6 => some 16 | 7 => some 17
  | 8 => none
  | 9 => some 18 | 10 => some 19
  | 11 => none
  | 12 => some 20 | 13 => some 21
  | 14 => none
  | 15 => some 22 | 16 => some 23 | 17 => some 24 | 18 => some 25 | 19 => some 26
  | 20 => none
  | 21 => some 27 | 22 => some 28 | 23 => some 29 | 24 => some 30 | 25 => some 31
  | _ => none

/-- Modelled from the spec: the character lookup of the Base32 decoder
(spec.md §4, `parse`): digits `0`-`9`, and the alphabet letters in either
case; every other character (including I, L, O, U) is rejected. -/
def char_value (c : Char) : Option Nat :=
  if 48 ≤ c.toNat ∧ c.toNat ≤ 57 then some (c.toNat - 48)
  else if 65 ≤ c.toNat ∧ c.toNat ≤ 90 then letter_val (c.toNat - 65)
  else if 97 ≤ c.toNat ∧ c.toNat ≤ 122 then letter_val (c.toNat - 97)
  else none

/-- Modelled from the spec: the accumulator loop of the Base32 decoder —
`value = value * 32 + digit` over the characters, failing on the first
character outside the accepted alphabet. -/
def decode_chars : List Char → Nat → Option Nat
  | [], acc => some acc
  | c :: rest, acc =>
    match char_value c with
    | none => none
    | some d => decode_chars rest (acc * 32 + d)

/-- Modelled from the spec: the error kinds of `parse` (spec.md §4, §7):
wrong length of the (trimmed) input, or a character outside the alphabet. -/
inductive DecodeError
  | InvalidLength
  | InvalidChar
deriving DecidableEq

/-- Modelled from the spec: whitespace for the purpose of trimming the input
of `parse` (spec.md §4 "the trimmed input"): space, tab, CR, LF. -/
def is_ws (c : Char) : Bool :=
  c.toNat == 32 || c.toNat == 9 || c.toNat == 13 || c.toNat == 10

/-- Modelled from the spec: trimming leading and trailing whitespace from the
input of `parse` (spec.md §4). -/
def trim (l : List Char) : List Char :=
  ((l.dropWhile is_ws).reverse.dropWhile is_ws).reverse

/-- Modelled from the spec: the `ulid` crate's `Ulid::from_str` invoked by
`input.coerce_str()?.parse::<Ulid>()` at src/plugin.rs:237-239, which is
missing from this repository's sources.  Per spec.md §4: reject when the
trimmed input is not exactly 26 characters long, reject any character outside
the accepted alphabet, otherwise reconstruct the 128-bit value. -/
def from_string (s : String) : Except DecodeError Nat :=
  if (trim s.data).length ≠ 26 then .error .InvalidLength
  else
    match decode_chars (trim s.data) 0 with
    | none => .error .InvalidChar
    | some u => .ok u

/-- Modelled from the spec: the `split` inspection view (spec.md §4) produced
by `ParseUlid::run` (src/plugin.rs:246-259): the timestamp component (kept
here as raw milliseconds; the calendar rendering by `chrono` is outside the
codec) paired with the payload rendered as its decimal numeric string. -/
def split (u : Nat) : Nat × String := (timestamp_ms u, Nat.repr (random u))

/-- The payload selection of `RandomUlid`, from the `UlidRandom` enum at
src/plugin.rs:138-143. -/
inductive UlidRandom
  | Random
  | Set (r : Nat)
  | Zeros
  | Ones
deriving DecidableEq

/-- Error kinds of the plugin, one per distinct `LabeledError` label built in
src/plugin.rs: `InvalidInput` is "Invalid input" (line 121), `FlagError` is
"Flag error" (line 157), `InvalidNumber` is "Invalid number" (lines 168 and
176), and `FailedParse e` is "Failed to parse ulid" (line 241) carrying the
underlying decode error. -/
inductive PluginErrorKind
  | InvalidInput
  | FlagError
  | InvalidNumber
  | FailedParse (e : DecodeError)
deriving DecidableEq

/-- The shape of the optional `random` field examined by
`selected_randomness` (src/plugin.rs:164-183): a string value, an integer
value (a 64-bit signed integer in the host protocol), or a value of any other
type. -/
inductive RndValue
  | str (val : String)
  | int (val : Int)
  | other
deriving DecidableEq

/-- Modelled from the spec: `val.parse::<u128>()` at src/plugin.rs:166 — the
standard decimal parse of an unsigned 128-bit integer, failing on a
non-numeric string or a value not below `2 ^ 128` (spec.md §7,
`NumericParseError`). -/
def parse_u128 (s : String) : Option Nat :=
  match s.toNat? with
  | some n => if n < 2 ^ 128 then some n else none
  | none => none

/-- `RandomUlid::selected_randomness` from src/plugin.rs:146-185: the match on
(zeroed flag, oned flag, optional `random` field).  `*val as u128` on a
signed 64-bit integer is the two's-complement reinterpretation, i.e. the
value modulo `2 ^ 128`. -/
def selected_randomness (zeroed oned : Bool) (input : Option RndValue) :
    Except PluginErrorKind UlidRandom :=
  match zeroed, oned, input with
  | true, true, _ => .error .FlagError
  | true, false, _ => .ok .Zeros
  | false, true, _ => .ok .Ones
  | false, false, none => .ok .Random
  | false, false, some (.str val) =>
    match parse_u128 val with
    | some n => .ok (.Set n)
    | none => .error .InvalidNumber
  | false, false, some (.int val) => .ok (.Set ((val % (2 ^ 128 : Int)).toNat))
  | false, false, some .other => .error .InvalidNumber

/-- `unix_millis` from src/plugin.rs:198-204.  `now_ms` is the wall clock read
performed when no explicit timestamp is given.  For an explicit timestamp
(milliseconds since the Unix epoch, possibly negative),
`duration_since(UNIX_EPOCH).unwrap()` panics — modelled as `none` — exactly
when the timestamp lies strictly before the epoch; `as_millis() as u64`
truncates the millisecond count modulo `2 ^ 64`. -/
def unix_millis (now_ms : Nat) (timestamp : Option Int) : Option Nat :=
  match timestamp with
  | none => some (now_ms % 2 ^ 64)
  | some ts => if ts < 0 then none else some (ts.toNat % 2 ^ 64)

/-- Modelled from the spec: the millisecond conversion inside the `ulid`
crate's `Ulid::from_datetime` (src/plugin.rs:190), which is missing from this
repository's sources.  Per spec.md §4 the supplied time is converted to
milliseconds since the Unix epoch (truncation to 48 bits happens in
`from_parts`); a pre-epoch time yields a zero duration rather than an error,
so this conversion is total. -/
def datetime_millis (ts : Int) : Nat := ts.toNat

/-- `RandomUlid::generate` from src/plugin.rs:187-195.  `now_ms` and
`rand_bits` are the two environmental reads (wall clock, random source);
`Ulid::new()` is `from_datetime` of the current time.  `none` models a panic
escaping from `unix_millis`. -/
def generate (now_ms rand_bits : Nat) (timestamp : Option Int)
    (random : UlidRandom) : Option Nat :=
  match timestamp, random with
  | none, .Random => some (from_parts (now_ms % 2 ^ 64) rand_bits)
  | some ts, .Random => some (from_parts (datetime_millis ts) rand_bits)
  | ts, .Set r => (unix_millis now_ms ts).map (fun ms => from_parts ms r)
  | ts, .Zeros => (unix_millis now_ms ts).map (fun ms => from_parts ms 0)
  | ts, .Ones =>
    (unix_millis now_ms ts).map (fun ms => from_parts ms (2 ^ 128 - 1))

/-- The piped input accepted by `RandomUlid::run` (src/plugin.rs:109-129):
nothing, a date, a record (with an optional date `timestamp` field and an
optional `random` field), or a value of any other type.  A record timestamp
field is taken here as an already well-typed date. -/
inductive RunInput
  | nothing
  | date (ts : Int)
  | record (ts : Option Int) (rnd : Option RndValue)
  | other
deriving DecidableEq

/-- `RandomUlid::run` from src/plugin.rs:102-135: dispatch on the input shape,
payload selection, generation, and formatting of the result.  The outer
`Option` models the reachable panic of `unix_millis` (`none`); the `Except`
carries the reported plugin errors. -/
def random_ulid_run (zeroed oned : Bool) (now_ms rand_bits : Nat)
    (input : RunInput) : Option (Except PluginErrorKind String) :=
  match input with
  | .other => some (.error .InvalidInput)
  | .nothing =>
    match selected_randomness zeroed oned none with
    | .error e => some (.error e)
    | .ok rnd =>
      (generate now_ms rand_bits none rnd).map (fun u => .ok (to_string u))
  | .date ts =>
    match selected_randomness zeroed oned none with
    | .error e => some (.error e)
    | .ok rnd =>
      (generate now_ms rand_bits (some ts) rnd).map (fun u => .ok (to_string u))
  | .record ts rnd_val =>
    match selected_randomness zeroed oned rnd_val with
    | .error e => some (.error e)
    | .ok rnd =>
      (generate now_ms rand_bits ts rnd).map (fun u => .ok (to_string u))

/-- `ParseUlid::run` from src/plugin.rs:230-260: parse the input string as a
ULID and expose its parts — the timestamp (as raw milliseconds here, see
`split`) and the payload as a decimal string. -/
def parse_ulid_run (input : String) : Except PluginErrorKind (Nat × String) :=
  match from_string input with
  | .error e => .error (.FailedParse e)
  | .ok u => .ok (split u)

/-! ### Arithmetic characterisation of `from_parts` -/

theorem from_parts_eq (t r : Nat) :
    from_parts t r = 2 ^ 80 * (t % 2 ^ 48) + r % 2 ^ 80 := by
  unfold from_parts TIME_BITS RAND_BITS
  rw [Nat.and_pow_two_sub_one_eq_mod, Nat.and_pow_two_sub_one_eq_mod,
    Nat.shiftLeft_eq, Nat.mul_comm,
    ← Nat.mul_add_lt_is_or (Nat.mod_lt _ (by norm_num)) (t % 2 ^ 48)]

theorem random_from_parts (t r : Nat) : random (from_parts t r) = r % 2 ^ 80 := by
  unfold random RAND_BITS
  rw [Nat.and_pow_two_sub_one_eq_mod, from_parts_eq, Nat.mul_add_mod,
    Nat.mod_mod_of_dvd r (dvd_refl _)]

theorem timestamp_from_parts (t r : Nat) :
    timestamp_ms (from_parts t r) = t % 2 ^ 48 := by
  unfold timestamp_ms RAND_BITS
  rw [Nat.shiftRight_eq_div_pow, from_parts_eq, Nat.mul_add_div (by norm_num),
    Nat.div_eq_of_lt (Nat.mod_lt _ (by norm_num)), Nat.add_zero]

theorem from_parts_lt (t r : Nat) : from_parts t r < 2 ^ 128 := by
  rw [from_parts_eq]
  have h1 : t % 2 ^ 48 < 2 ^ 48 := Nat.mod_lt _ (by norm_num)
  have h2 : r % 2 ^ 80 < 2 ^ 80 := Nat.mod_lt _ (by norm_num)
  calc 2 ^ 80 * (t % 2 ^ 48) + r % 2 ^ 80
      < 2 ^ 80 * (t % 2 ^ 48) + 2 ^ 80 := by omega
    _ = 2 ^ 80 * (t % 2 ^ 48 + 1) := by ring
    _ ≤ 2 ^ 80 * 2 ^ 48 := Nat.mul_le_mul_left _ h1
    _ = 2 ^ 128 := by norm_num

/-! ### The Base32 encoding: length, alphabet, injectivity, order -/

theorem to_base32_length (k : Nat) : ∀ u, (to_base32 k u).length = k := by
  induction k with
  | zero => intro u; rfl
  | succ k ih => intro u; simp [to_base32, ih]

theorem encode_char_mem : ∀ d, d < 32 → encode_char d ∈ alphabet := by decide

theorem to_base32_mem (k : Nat) :
    ∀ u, ∀ c ∈ to_base32 k u, c ∈ alphabet := by
  induction k with
  | zero => intro u c hc; simp [to_base32] at hc
  | succ k ih =>
    intro u c hc
    rcases List.mem_cons.mp hc with h | h
    · subst h; exact encode_char_mem _ (Nat.mod_lt _ (by norm_num))
    · exact ih _ c h

theorem encode_char_lt_encode_char :
    ∀ d1, d1 < 32 → ∀ d2, d2 < 32 → d1 < d2 →
      encode_char d1 < encode_char d2 := by decide

theorem char_value_encode_char : ∀ d, d < 32 →
    char_value (encode_char d) = some d := by decide

theorem to_base32_mod (k u : Nat) : to_base32 k (u % 32 ^ k) = to_base32 k u := by
  cases k with
  | zero => rfl
  | succ k =>
    simp only [to_base32]
    have hdvd : (32 : Nat) ^ k ∣ 32 ^ (k + 1) := pow_dvd_pow 32 (Nat.le_succ k)
    congr 1
    · congr 1
      rw [pow_succ, Nat.mod_mul_right_div_self, Nat.mod_mod_of_dvd _ (dvd_refl _)]
    · rw [Nat.mod_mod_of_dvd _ hdvd]

theorem to_base32_append (m n : Nat) : ∀ u,
    to_base32 (m + n) u = to_base32 m (u / 32 ^ n) ++ to_base32 n (u % 32 ^ n) := by
  induction m with
  | zero => intro u; simpa using (to_base32_mod n u).symm
  | succ m ih =>
    intro u
    have hsum : m + 1 + n = (m + n) + 1 := by omega
    rw [hsum]
    simp only [to_base32, List.cons_append]
    congr 1
    · congr 2
      rw [Nat.div_div_eq_div_mul, ← pow_add, Nat.add_comm n m]
    · rw [to_base32_mod, ih u]
      congr 1
      exact (to_base32_mod m (u / 32 ^ n)).symm

theorem to_base32_take (m n u : Nat) :
    (to_base32 (m + n) u).take m = to_base32 m (u / 32 ^ n) := by
  rw [to_base32_append m n u]
  exact List.take_left' (to_base32_length m _)

theorem to_base32_lt (k : Nat) : ∀ a b, a < b → b < 32 ^ k →
    List.lt (to_base32 k a) (to_base32 k b) := by
  induction k with
  | zero => intro a b hab hb; omega
  | succ k ih =>
    intro a b hab hb
    have hk : (0 : Nat) < 32 ^ k := Nat.pos_pow_of_pos k (by norm_num)
    have hbd : b / 32 ^ k < 32 := Nat.div_lt_of_lt_mul (by rwa [← pow_succ])
    have had : a / 32 ^ k < 32 :=
      Nat.div_lt_of_lt_mul (by rw [← pow_succ]; omega)
    simp only [to_base32]
    rcases Nat.lt_or_ge (a / 32 ^ k) (b / 32 ^ k) with hlt | hge
    · exact List.lt.head _ _ (by
        rw [Nat.mod_eq_of_lt had, Nat.mod_eq_of_lt hbd]
        exact encode_char_lt_encode_char _ had _ hbd hlt)
    · have heq : a / 32 ^ k = b / 32 ^ k :=
        Nat.le_antisymm (Nat.div_le_div_right (Nat.le_of_lt hab)) hge
      have e1 : 32 ^ k * (a / 32 ^ k) + a % 32 ^ k = a := Nat.div_add_mod a (32 ^ k)
      have e2 : 32 ^ k * (b / 32 ^ k) + b % 32 ^ k = b := Nat.div_add_mod b (32 ^ k)
      rw [heq] at e1
      have hmods : a % 32 ^ k < b % 32 ^ k := by omega
      rw [heq]
      exact List.lt.tail (Char.lt_irrefl _) (Char.lt_irrefl _)
        (ih _ _ hmods (Nat.mod_lt _ hk))

/-! ### The Base32 decoder -/

theorem decode_chars_to_base32 (k : Nat) : ∀ u acc, u < 32 ^ k →
    decode_chars (to_base32 k u) acc = some (acc * 32 ^ k + u) := by
  induction k with
  | zero =>
    intro u acc h
    have : u = 0 := by omega
    subst this
    simp [to_base32, decode_chars]
  | succ k ih =>
    intro u acc h
    have hd : u / 32 ^ k < 32 := Nat.div_lt_of_lt_mul (by rwa [← pow_succ])
    have hk : (0 : Nat) < 32 ^ k := Nat.pos_pow_of_pos k (by norm_num)
    simp only [to_base32, decode_chars, Nat.mod_eq_of_lt hd,
      char_value_encode_char _ hd]
    rw [ih _ _ (Nat.mod_lt _ hk)]
    congr 1
    have h2 : 32 ^ k * (u / 32 ^ k) + u % 32 ^ k = u := Nat.div_add_mod u (32 ^ k)
    calc (acc * 32 + u / 32 ^ k) * 32 ^ k + u % 32 ^ k
        = acc * (32 ^ k * 32) + (32 ^ k * (u / 32 ^ k) + u % 32 ^ k) := by ring
      _ = acc * 32 ^ (k + 1) + u := by rw [h2, pow_succ]

theorem decode_chars_eq_none : ∀ (l : List Char) (acc : Nat),
    (∃ c ∈ l, char_value c = none) → decode_chars l acc = none := by
  intro l
  induction l with
  | nil => intro acc h; simp at h
  | cons a l ih =>
    intro acc h
    rcases h with ⟨c, hc, hv⟩
    rcases List.mem_cons.mp hc with rfl | hmem
    · simp [decode_chars, hv]
    · simp only [decode_chars]
      cases hcv : char_value a
      · rfl
      · exact ih _ ⟨c, hmem, hv⟩

/-! ### Trimming -/

theorem dropWhile_eq_self_of_none {p : Char → Bool} {l : List Char}
    (h : ∀ c ∈ l, p c = false) : l.dropWhile p = l := by
  cases l with
  | nil => rfl
  | cons a l => rw [List.dropWhile_cons, h a (List.mem_cons_self a l)]; simp

theorem trim_eq_self {l : List Char} (h : ∀ c ∈ l, is_ws c = false) :
    trim l = l := by
  unfold trim
  rw [dropWhile_eq_self_of_none h,
    dropWhile_eq_self_of_none (fun c hc => h c (List.mem_reverse.mp hc)),
    List.reverse_reverse]

theorem alphabet_not_ws : ∀ c ∈ alphabet, is_ws c = false := by decide

theorem trim_map {f : Char → Char} (hf : ∀ c, is_ws (f c) = is_ws c)
    (l : List Char) : trim (l.map f) = (trim l).map f := by
  have hp : (is_ws ∘ f) = is_ws := funext hf
  unfold trim
  rw [List.dropWhile_map, hp, ← List.map_reverse, List.dropWhile_map, hp,
    ← List.map_reverse]

/-! ### Characters under case mapping -/

theorem toNat_ofNat_of_lt {n : Nat} (h : n < 55296) :
    (Char.ofNat n).toNat = n := by
  simp only [Char.ofNat]
  rw [dif_pos (Or.inl h)]
  rfl

theorem toNat_toUpper (c : Char) :
    (Char.toUpper c).toNat =
      if 97 ≤ c.toNat ∧ c.toNat ≤ 122 then c.toNat - 32 else c.toNat := by
  by_cases h : 97 ≤ c.toNat ∧ c.toNat ≤ 122
  · rw [if_pos h]
    show (if c.toNat ≥ 97 ∧ c.toNat ≤ 122 then Char.ofNat (c.toNat - 32)
      else c).toNat = c.toNat - 32
    rw [if_pos h]
    exact toNat_ofNat_of_lt (by omega)
  · rw [if_neg h]
    show (if c.toNat ≥ 97 ∧ c.toNat ≤ 122 then Char.ofNat (c.toNat - 32)
      else c).toNat = c.toNat
    rw [if_neg h]

theorem toNat_toLower (c : Char) :
    (Char.toLower c).toNat =
      if 65 ≤ c.toNat ∧ c.toNat ≤ 90 then c.toNat + 32 else c.toNat := by
  by_cases h : 65 ≤ c.toNat ∧ c.toNat ≤ 90
  · rw [if_pos h]
    show (if c.toNat ≥ 65 ∧ c.toNat ≤ 90 then Char.ofNat (c.toNat + 32)
      else c).toNat = c.toNat + 32
    rw [if_pos h]
    exact toNat_ofNat_of_lt (by omega)
  · rw [if_neg h]
    show (if c.toNat ≥ 65 ∧ c.toNat ≤ 90 then Char.ofNat (c.toNat + 32)
      else c).toNat = c.toNat
    rw [if_neg h]

theorem char_value_toUpper (c : Char) :
    char_value (Char.toUpper c) = char_value c := by
  have h := toNat_toUpper c
  by_cases hc : 97 ≤ c.toNat ∧ c.toNat ≤ 122
  · rw [if_pos hc] at h
    unfold char_value
    rw [h]
    rw [if_neg (by omega), if_pos (by omega), if_neg (by omega),
      if_neg (by omega), if_pos hc]
    congr 1
  · rw [if_neg hc] at h
    unfold char_value
    rw [h]

theorem char_value_toLower (c : Char) :
    char_value (Char.toLower c) = char_value c := by
  have h := toNat_toLower c
  by_cases hc : 65 ≤ c.toNat ∧ c.toNat ≤ 90
  · rw [if_pos hc] at h
    unfold char_value
    rw [h]
    rw [if_neg (by omega), if_neg (by omega), if_pos (by omega),
      if_neg (by omega), if_pos hc]
    congr 1
  · rw [if_neg hc] at h
    unfold char_value
    rw [h]

theorem is_ws_iff {c : Char} : is_ws c = true ↔
    (c.toNat = 32 ∨ c.toNat = 9 ∨ c.toNat = 13 ∨ c.toNat = 10) := by
  simp [is_ws, or_assoc]

theorem is_ws_toUpper (c : Char) : is_ws (Char.toUpper c) = is_ws c := by
  have h := toNat_toUpper c
  rw [Bool.eq_iff_iff, is_ws_iff, is_ws_iff, h]
  by_cases hc : 97 ≤ c.toNat ∧ c.toNat ≤ 122
  · rw [if_pos hc]; omega
  · rw [if_neg hc]

theorem is_ws_toLower (c : Char) : is_ws (Char.toLower c) = is_ws c := by
  have h := toNat_toLower c
  rw [Bool.eq_iff_iff, is_ws_iff, is_ws_iff, h]
  by_cases hc : 65 ≤ c.toNat ∧ c.toNat ≤ 90
  · rw [if_pos hc]; omega
  · rw [if_neg hc]

/-! ### Parsing formatted text -/

theorem decode_chars_map {f : Char → Char}
    (hcv : ∀ c, char_value (f c) = char_value c) :
    ∀ (l : List Char) (acc : Nat),
      decode_chars (l.map f) acc = decode_chars l acc := by
  intro l
  induction l with
  | nil => intro acc; rfl
  | cons a l ih =>
    intro acc
    simp only [List.map_cons, decode_chars, hcv a]
    cases hv : char_value a with
    | none => rfl
    | some d => exact ih _

theorem from_string_to_string (u : Nat) (hu : u < 2 ^ 128) :
    from_string (to_string u) = .ok u := by
  have hmem : ∀ c ∈ to_base32 26 u, is_ws c = false := fun c hc =>
    alphabet_not_ws c (to_base32_mem 26 u c hc)
  have hlt : u < 32 ^ 26 := lt_of_lt_of_le hu (by norm_num)
  dsimp only [from_string, to_string]
  rw [trim_eq_self hmem, to_base32_length, decode_chars_to_base32 26 u 0 hlt]
  norm_num

theorem from_string_eq_of_map {f : Char → Char}
    (hws : ∀ c, is_ws (f c) = is_ws c)
    (hcv : ∀ c, char_value (f c) = char_value c) (s : String) :
    from_string ⟨s.data.map f⟩ = from_string s := by
  dsimp only [from_string]
  rw [trim_map hws, List.length_map, decode_chars_map hcv]

/-- Modelled from the spec: `uppercase(s)` (spec.md §8), character-wise ASCII
upper-casing of a string. -/
def uppercase (s : String) : String := ⟨s.data.map Char.toUpper⟩

/-- Modelled from the spec: `lowercase(s)` (spec.md §8), character-wise ASCII
lower-casing of a string. -/
def lowercase (s : String) : String := ⟨s.data.map Char.toLower⟩

/-! ### Decomposing `generate` -/

theorem decomp_lt {tm p : Nat} (htm : tm < 2 ^ 48) (hp : p < 2 ^ 80) :
    2 ^ 80 * tm + p < 2 ^ 128 := by
  calc 2 ^ 80 * tm + p < 2 ^ 80 * tm + 2 ^ 80 := by omega
    _ = 2 ^ 80 * (tm + 1) := by ring
    _ ≤ 2 ^ 80 * 2 ^ 48 := Nat.mul_le_mul_left _ htm
    _ = 2 ^ 128 := by norm_num

theorem generate_explicit (now rb : Nat) (t : Int) (ht : 0 ≤ t) (r : UlidRandom) :
    ∃ p, p < 2 ^ 80 ∧
      generate now rb (some t) r = some (2 ^ 80 * (t.toNat % 2 ^ 48) + p) := by
  have h64 : (2 : Nat) ^ 48 ∣ 2 ^ 64 := pow_dvd_pow 2 (by omega)
  have hnl : ¬ t < 0 := not_lt.mpr ht
  cases r with
  | Random =>
    exact ⟨rb % 2 ^ 80, Nat.mod_lt _ (by norm_num), by
      simp only [generate, datetime_millis, from_parts_eq]⟩
  | Set r =>
    refine ⟨r % 2 ^ 80, Nat.mod_lt _ (by norm_num), ?_⟩
    simp only [generate, unix_millis, if_neg hnl, Option.map_some', from_parts_eq,
      Nat.mod_mod_of_dvd _ h64]
  | Zeros =>
    refine ⟨0, by norm_num, ?_⟩
    simp only [generate, unix_millis, if_neg hnl, Option.map_some', from_parts_eq,
      Nat.mod_mod_of_dvd _ h64, Nat.zero_mod, Nat.add_zero]
  | Ones =>
    refine ⟨2 ^ 80 - 1, by norm_num, ?_⟩
    have hm : (2 ^ 128 - 1) % 2 ^ 80 = 2 ^ 80 - 1 := by decide
    simp only [generate, unix_millis, if_neg hnl, Option.map_some', from_parts_eq,
      Nat.mod_mod_of_dvd _ h64, hm]

/-! ### Small computation lemmas for `generate` and `split` -/

theorem split_payload_from_parts (ms r : Nat) :
    (split (from_parts ms r)).2 = Nat.repr (r % 2 ^ 80) := by
  dsimp only [split]
  rw [random_from_parts]

theorem generate_eq_map (now rb : Nat) (ts : Option Int) :
    (∀ r, generate now rb ts (.Set r) =
      (unix_millis now ts).map (fun ms => from_parts ms r)) ∧
    (generate now rb ts .Zeros =
      (unix_millis now ts).map (fun ms => from_parts ms 0)) ∧
    (generate now rb ts .Ones =
      (unix_millis now ts).map (fun ms => from_parts ms (2 ^ 128 - 1))) := by
  refine ⟨fun r => ?_, ?_, ?_⟩ <;> cases ts <;> rfl

theorem take_ten (tm p : Nat) (hp : p < 2 ^ 80) :
    (to_base32 26 (2 ^ 80 * tm + p)).take 10 = to_base32 10 tm := by
  have h26 : (26 : Nat) = 10 + 16 := rfl
  rw [h26, to_base32_take 10 16 _]
  congr 1
  have h32 : (32 : Nat) ^ 16 = 2 ^ 80 := by norm_num
  rw [h32, Nat.mul_add_div (by norm_num), Nat.div_eq_of_lt hp, Nat.add_zero]

end NuUlid

deriving instance DecidableEq for Except

namespace NuUlid

/-! ## The claims -/

/-- C1: for every valid `Ulid` value `u` (a 128-bit value), parsing the
26-character text produced by formatting `u` reconstructs `u` exactly, and
re-formatting the parsed value yields the identical canonical text. -/
theorem ulid_roundtrip (u : Nat) (hu : u < 2 ^ 128) :
    from_string (to_string u) = .ok u ∧
    ∀ v, from_string (to_string u) = .ok v → to_string v = to_string u := by
  have h := from_string_to_string u hu
  refine ⟨h, fun v hv => ?_⟩
  have h2 : Except.ok (ε := DecodeError) u = Except.ok v := h.symm.trans hv
  injection h2 with h2
  rw [← h2]

/-- Witness for C1 at the concrete value 12345. -/
theorem ulid_roundtrip_check : from_string (to_string 12345) = .ok 12345 :=
  (ulid_roundtrip 12345 (by norm_num)).1

/-- C2: `format` is total and deterministic, its output always has exactly 26
characters, and every character belongs to the 32-symbol Crockford Base32
alphabet. -/
theorem to_string_always_valid (u : Nat) :
    (to_string u).length = 26 ∧ ∀ c ∈ (to_string u).data, c ∈ alphabet :=
  ⟨to_base32_length 26 u, to_base32_mem 26 u⟩

/-- Witness for C2 at the concrete value 0. -/
theorem to_string_always_valid_check :
    (to_string 0).length = 26 ∧ '0' ∈ alphabet :=
  ⟨(to_string_always_valid 0).1,
   (to_string_always_valid 0).2 '0' (by decide)⟩

/-- C3: for any two timestamps `t1 < t2` (milliseconds, within the 48-bit
timestamp range of the data model) and any payload modes, the formatted text
of a ULID generated at `t1` is strictly less than that of a ULID generated at
`t2` under lexicographic string comparison. -/
theorem ulid_text_monotonic (now1 now2 rb1 rb2 : Nat) (t1 t2 : Int)
    (r1 r2 : UlidRandom) (u1 u2 : Nat)
    (h1 : 0 ≤ t1) (h12 : t1 < t2) (h2 : t2 < 2 ^ 48)
    (g1 : generate now1 rb1 (some t1) r1 = some u1)
    (g2 : generate now2 rb2 (some t2) r2 = some u2) :
    to_string u1 < to_string u2 := by
  obtain ⟨p1, hp1, e1⟩ := generate_explicit now1 rb1 t1 h1 r1
  obtain ⟨p2, hp2, e2⟩ := generate_explicit now2 rb2 t2 (le_trans h1 (le_of_lt h12)) r2
  rw [g1] at e1
  rw [g2] at e2
  injection e1 with e1
  injection e2 with e2
  have ht2 : t2.toNat < 2 ^ 48 := by omega
  have ht1 : t1.toNat < t2.toNat := by omega
  have hm1 : t1.toNat % 2 ^ 48 = t1.toNat := Nat.mod_eq_of_lt (by omega)
  have hm2 : t2.toNat % 2 ^ 48 = t2.toNat := Nat.mod_eq_of_lt ht2
  have hlt : u1 < u2 := by
    rw [e1, e2, hm1, hm2]
    calc 2 ^ 80 * t1.toNat + p1 < 2 ^ 80 * t1.toNat + 2 ^ 80 := by omega
      _ = 2 ^ 80 * (t1.toNat + 1) := by ring
      _ ≤ 2 ^ 80 * t2.toNat := Nat.mul_le_mul_left _ ht1
      _ ≤ 2 ^ 80 * t2.toNat + p2 := Nat.le_add_right _ _
  have hub : u2 < 32 ^ 26 := by
    rw [e2]
    exact lt_of_lt_of_le (decomp_lt (Nat.mod_lt _ (by norm_num)) hp2) (by norm_num)
  exact String.lt_iff_toList_lt.mpr
    ((List.lt_iff_lex_lt _ _).mp (to_base32_lt 26 u1 u2 hlt hub))

/-- Witness for C3: timestamps 0 and 1 with all-zero payloads. -/
theorem ulid_text_monotonic_check : to_string 0 < to_string (2 ^ 80) :=
  ulid_text_monotonic 0 0 0 0 0 1 .Zeros .Zeros 0 (2 ^ 80)
    (by norm_num) (by norm_num) (by norm_num) (by decide) (by decide)

/-- C4: `parse` fails with the invalid-length kind whenever the trimmed input
length is not exactly 26 characters, fails with the invalid-character kind
whenever a 26-character input holds any character outside the accepted
alphabet, and in particular rejects the three canonical malformed inputs with
such an error kind (the model is a total function, so in particular it never
panics or returns a default value). -/
theorem ulid_parse_rejects (s : String) :
    ((trim s.data).length ≠ 26 → from_string s = .error .InvalidLength) ∧
    ((trim s.data).length = 26 → (∃ c ∈ trim s.data, char_value c = none) →
      from_string s = .error .InvalidChar) ∧
    from_string "" = .error .InvalidLength ∧
    from_string "short" = .error .InvalidLength ∧
    from_string "ILLEGALCHARSxxxxxxxxxxxxxx" = .error .InvalidChar := by
  refine ⟨?_, ?_, by decide, by decide, by decide⟩
  · intro h
    dsimp only [from_string]
    rw [if_pos h]
  · intro h26 hex
    dsimp only [from_string]
    rw [if_neg (fun hne => hne h26), decode_chars_eq_none _ 0 hex]

/-- Witness for C4 at two concrete malformed inputs. -/
theorem ulid_parse_rejects_check :
    from_string "A" = .error .InvalidLength ∧
    from_string "IIIIIIIIIIIIIIIIIIIIIIIIII" = .error .InvalidChar :=
  ⟨(ulid_parse_rejects "A").1 (by decide),
   (ulid_parse_rejects "IIIIIIIIIIIIIIIIIIIIIIIIII").2.1 (by decide) (by decide)⟩

/-- C5: `parse` is case-insensitive — for every syntactically valid string
`s`, parsing `s`, its uppercasing and its lowercasing all agree. -/
theorem ulid_parse_case_insensitive (s : String)
    (_valid : ∃ u, from_string s = .ok u) :
    from_string s = from_string (uppercase s) ∧
    from_string s = from_string (lowercase s) :=
  ⟨(from_string_eq_of_map is_ws_toUpper char_value_toUpper s).symm,
   (from_string_eq_of_map is_ws_toLower char_value_toLower s).symm⟩

/-- Witness for C5 at a concrete valid ULID string. -/
theorem ulid_parse_case_insensitive_check :
    from_string "01ARZ3NDEKTSV4RRFFQ69G5FAV" =
      from_string (uppercase "01ARZ3NDEKTSV4RRFFQ69G5FAV") ∧
    from_string "01ARZ3NDEKTSV4RRFFQ69G5FAV" =
      from_string (lowercase "01ARZ3NDEKTSV4RRFFQ69G5FAV") :=
  ulid_parse_case_insensitive "01ARZ3NDEKTSV4RRFFQ69G5FAV"
    ⟨1777027686520646174104517696511196507, by decide⟩

end NuUlid

namespace NuUlid

/-- C6: splitting a ULID generated in Zeros payload mode yields the decimal
payload string "0", and in Ones mode the decimal payload string
"1208925819614629174706175" (2 ^ 80 − 1), for every timestamp at which a
ULID is produced. -/
theorem ulid_padding_modes (now rb : Nat) (ts : Option Int) (u0 u1 : Nat)
    (h0 : generate now rb ts .Zeros = some u0)
    (h1 : generate now rb ts .Ones = some u1) :
    (split u0).2 = "0" ∧ (split u1).2 = "1208925819614629174706175" := by
  rw [(generate_eq_map now rb ts).2.1] at h0
  rw [(generate_eq_map now rb ts).2.2] at h1
  obtain ⟨ms0, -, hu0⟩ := Option.map_eq_some'.mp h0
  obtain ⟨ms1, -, hu1⟩ := Option.map_eq_some'.mp h1
  subst hu0 hu1
  refine ⟨?_, ?_⟩
  · rw [split_payload_from_parts]
    decide
  · rw [split_payload_from_parts]
    decide

/-- Witness for C6 with the wall clock at the epoch. -/
theorem ulid_padding_modes_check :
    (split 0).2 = "0" ∧
    (split (2 ^ 80 - 1)).2 = "1208925819614629174706175" :=
  ulid_padding_modes 0 0 none 0 (2 ^ 80 - 1) (by decide) (by decide)

/-- C7: for a caller-supplied Fixed payload value, only its low 80 bits become
the ULID's payload, and in particular a fixed payload of 12345 splits back to
the decimal payload string "12345". -/
theorem ulid_fixed_payload (now rb : Nat) (ts : Option Int) (r u : Nat)
    (h : generate now rb ts (.Set r) = some u) :
    random u = r % 2 ^ 80 ∧ (r < 2 ^ 80 → random u = r) ∧
    (r = 12345 → (split u).2 = "12345") := by
  rw [(generate_eq_map now rb ts).1 r] at h
  obtain ⟨ms, -, hu⟩ := Option.map_eq_some'.mp h
  subst hu
  refine ⟨random_from_parts ms r, fun hr => ?_, fun hr => ?_⟩
  · rw [random_from_parts, Nat.mod_eq_of_lt hr]
  · subst hr
    rw [split_payload_from_parts]
    decide

/-- Witness for C7 at fixed payload 12345 and the epoch timestamp. -/
theorem ulid_fixed_payload_check : (split 12345).2 = "12345" :=
  (ulid_fixed_payload 0 0 none 12345 12345 (by decide)).2.2 rfl

/-- C8 counterexample: with both flags set and a piped input of an unsupported
type, the run fails with the invalid-input error, not the conflicting-options
flag error, so the error kind is not conflicting-options for every input
value. -/
theorem conflicting_flags_counterexample :
    random_ulid_run true true 0 0 .other = some (.error .InvalidInput) ∧
    ¬ random_ulid_run true true 0 0 .other = some (.error .FlagError) := by
  decide

/-- C8 (amended): with the zeroed and oned flags both set, every invocation
fails — no ULID is produced for any input or timestamp — and for every input
of a supported shape (nothing, a date, or a record) the reported error is the
conflicting-options flag error; an unsupported input type reports the
invalid-input error instead. -/
theorem conflicting_flags_error (now rb : Nat) (inp : RunInput) :
    (∀ rv, selected_randomness true true rv = .error .FlagError) ∧
    (∃ e, random_ulid_run true true now rb inp = some (.error e)) ∧
    (inp ≠ .other →
      random_ulid_run true true now rb inp = some (.error .FlagError)) := by
  refine ⟨fun rv => rfl, ?_, ?_⟩
  · cases inp with
    | nothing => exact ⟨.FlagError, rfl⟩
    | date ts => exact ⟨.FlagError, rfl⟩
    | record ts rv => exact ⟨.FlagError, rfl⟩
    | other => exact ⟨.InvalidInput, rfl⟩
  · intro hne
    cases inp with
    | nothing => rfl
    | date ts => rfl
    | record ts rv => rfl
    | other => exact absurd rfl hne

/-- Witness for C8 (amended) at empty piped input. -/
theorem conflicting_flags_error_check :
    selected_randomness true true none = .error .FlagError ∧
    random_ulid_run true true 0 0 .nothing = some (.error .FlagError) :=
  ⟨(conflicting_flags_error 0 0 .nothing).1 none,
   (conflicting_flags_error 0 0 .nothing).2.2 (by decide)⟩

/-- C9: the 10-character timestamp-derived text prefix of a generated ULID is
independent of the payload mode — for a fixed explicit timestamp, any two
generated ULIDs share their first 10 characters; and at the literal timestamp
1710848760000 ms the Zeros-mode ULID's decimal payload splits to "0". -/
theorem ulid_timestamp_first_ten (now1 now2 rb1 rb2 : Nat) (t : Int) (ht : 0 ≤ t)
    (r1 r2 : UlidRandom) (u1 u2 : Nat)
    (g1 : generate now1 rb1 (some t) r1 = some u1)
    (g2 : generate now2 rb2 (some t) r2 = some u2) :
    (to_string u1).data.take 10 = (to_string u2).data.take 10 ∧
    (t = 1710848760000 → r1 = .Zeros → (split u1).2 = "0") := by
  refine ⟨?_, fun ht0 hr1 => ?_⟩
  · obtain ⟨p1, hp1, e1⟩ := generate_explicit now1 rb1 t ht r1
    obtain ⟨p2, hp2, e2⟩ := generate_explicit now2 rb2 t ht r2
    rw [g1] at e1
    rw [g2] at e2
    injection e1 with e1
    injection e2 with e2
    subst e1 e2
    show (to_base32 26 (2 ^ 80 * (t.toNat % 2 ^ 48) + p1)).take 10 =
      (to_base32 26 (2 ^ 80 * (t.toNat % 2 ^ 48) + p2)).take 10
    rw [take_ten _ _ hp1, take_ten _ _ hp2]
  · subst hr1
    rw [(generate_eq_map now1 rb1 (some t)).2.1] at g1
    obtain ⟨ms, -, hu⟩ := Option.map_eq_some'.mp g1
    rw [← hu, split_payload_from_parts]
    decide

/-- Witness for C9 at the literal timestamp 1710848760000 ms, comparing the
Zeros mode against a fixed payload of 12345. -/
theorem ulid_timestamp_first_ten_check :
    (to_string 2068289239419672001405884573941760000).data.take 10 =
      (to_string 2068289239419672001405884573941772345).data.take 10 ∧
    (split 2068289239419672001405884573941760000).2 = "0" :=
  ⟨(ulid_timestamp_first_ten 0 0 0 0 1710848760000 (by norm_num) .Zeros
      (.Set 12345) 2068289239419672001405884573941760000
      2068289239419672001405884573941772345 (by decide) (by decide)).1,
   (ulid_timestamp_first_ten 0 0 0 0 1710848760000 (by norm_num) .Zeros
      (.Set 12345) 2068289239419672001405884573941760000
      2068289239419672001405884573941772345 (by decide) (by decide)).2
      rfl rfl⟩

/-- C10: `generate` is total only for timestamps at or after the Unix epoch —
in the Set (Fixed), Zeros and Ones payload modes the millisecond conversion
`unix_millis` hits its panic branch (modelled as `none`) exactly when the
explicit timestamp is strictly before the epoch, and for epoch-or-later
timestamps every mode produces a ULID. -/
theorem generate_pre_epoch_panics (now rb r : Nat) (t : Int) (ht : t < 0) :
    unix_millis now (some t) = none ∧
    generate now rb (some t) (.Set r) = none ∧
    generate now rb (some t) .Zeros = none ∧
    generate now rb (some t) .Ones = none ∧
    (∀ t2 : Int, 0 ≤ t2 → ∀ mode,
      (generate now rb (some t2) mode).isSome = true) := by
  have hm : unix_millis now (some t) = none := by
    simp [unix_millis, ht]
  refine ⟨hm, ?_, ?_, ?_, ?_⟩
  · rw [(generate_eq_map now rb (some t)).1 r, hm]
    rfl
  · rw [(generate_eq_map now rb (some t)).2.1, hm]
    rfl
  · rw [(generate_eq_map now rb (some t)).2.2, hm]
    rfl
  · intro t2 ht2 mode
    have hm2 : unix_millis now (some t2) = some (t2.toNat % 2 ^ 64) := by
      simp [unix_millis, not_lt.mpr ht2]
    cases mode with
    | Random => rfl
    | Set r2 => rw [(generate_eq_map now rb (some t2)).1 r2, hm2]; rfl
    | Zeros => rw [(generate_eq_map now rb (some t2)).2.1, hm2]; rfl
    | Ones => rw [(generate_eq_map now rb (some t2)).2.2, hm2]; rfl

/-- Witness for C10 at one millisecond before the epoch. -/
theorem generate_pre_epoch_panics_check :
    unix_millis 0 (some (-1)) = none ∧
    generate 0 0 (some (-1)) .Zeros = none :=
  ⟨(generate_pre_epoch_panics 0 0 0 (-1) (by norm_num)).1,
   (generate_pre_epoch_panics 0 0 0 (-1) (by norm_num)).2.2.1⟩

end NuUlid
